import Mathlib

/-!
# Verification of the Framer form e-mail API handler

Shallow embedding, in Lean 4, of the single request handler in
`framer-form-email-api/index.js`: the HTML-escaping utility `esc`, the
key-normalization utility `normalize`, the zod payload validation, the
field defaulting, the two rendered HTML messages, and the sequential
dispatch of the two outbound provider send calls.

Strings are modelled by Lean `String` (a wrapped `List Char`); JavaScript
`replaceAll` with a single-character pattern, `trim`, and `toLowerCase`
are modelled character-by-character on the underlying list.
-/

namespace FramerForm

/-! ## The `esc` HTML-escaping utility

JavaScript source:
`const esc = s => String(s).replaceAll('&','&amp;').replaceAll('<','&lt;').replaceAll('>','&gt;');`
-/

/-- `String.prototype.replaceAll` with a one-character pattern `t`:
every occurrence of `t` is replaced by `rep`, scanning left to right. -/
def replaceAllChar (t : Char) (rep : List Char) : List Char → List Char
  | [] => []
  | c :: cs => (if c = t then rep else [c]) ++ replaceAllChar t rep cs

/-- The three chained `replaceAll` stages of `esc`, on the character list:
`&` → `&amp;` first, then `<` → `&lt;`, then `>` → `&gt;`. -/
def escList (l : List Char) : List Char :=
  replaceAllChar '>' "&gt;".data
    (replaceAllChar '<' "&lt;".data
      (replaceAllChar '&' "&amp;".data l))

/-- The `esc` utility on strings. -/
def esc (s : String) : String := ⟨escList s.data⟩

/-- The three characters `esc` rewrites. -/
def isSpecial (c : Char) : Bool := c == '&' || c == '<' || c == '>'

/-- Per-character action of `esc` (derived form; see `escList_eq_flatMap`). -/
def escChar (c : Char) : List Char :=
  if c = '&' then "&amp;".data
  else if c = '<' then "&lt;".data
  else if c = '>' then "&gt;".data
  else [c]

/-! ## Safety of escaped output -/

/-- Every `'&'` in the list begins one of the three entities
`&amp;` `&lt;` `&gt;` (no bare ampersand). -/
def noBareAmp : List Char → Bool
  | [] => true
  | c :: rest =>
    if c = '&' then
      ("amp;".data.isPrefixOf rest || "lt;".data.isPrefixOf rest ||
        "gt;".data.isPrefixOf rest) && noBareAmp rest
    else noBareAmp rest

/-- An escaped fragment is safe for HTML interpolation: it holds no raw
`'<'` or `'>'`, and every `'&'` starts a fixed entity. -/
def escSafe (s : String) : Bool :=
  s.data.all (fun c => c != '<' && c != '>') && noBareAmp s.data

/-! ## The `normalize` utility

JavaScript source:
```
const normalize = obj => {
  const out = {};
  for (const [k, v] of Object.entries(obj || {})) {
    const kk = String(k).toLowerCase();
    out[kk] = typeof v === 'string' ? v : JSON.stringify(v);
  }
  return out;
};
```
Objects are modelled as association lists in property-insertion order
(the order `Object.entries` iterates for string keys); assigning to an
existing key overwrites its value in place, assigning a fresh key
appends it. -/

/-- `String.prototype.toLowerCase`, character by character. -/
def jsLower (s : String) : String := ⟨s.data.map Char.toLower⟩

/-- A JSON-representable JavaScript value (the scalar fragment that can
appear in a parsed request body field). -/
inductive JsValue where
  | vstr (s : String)
  | vnum (n : Int)
  | vbool (b : Bool)
  | vnull
deriving DecidableEq

def hexDigit (n : Nat) : Char := "0123456789abcdef".data.getD n '0'

/-- `JSON.stringify` escaping of one character inside a string literal. -/
def jsonEscChar (c : Char) : List Char :=
  if c = '"' then ['\\', '"']
  else if c = '\\' then ['\\', '\\']
  else if c = '\x08' then ['\\', 'b']
  else if c = '\x0c' then ['\\', 'f']
  else if c = '\n' then ['\\', 'n']
  else if c = '\r' then ['\\', 'r']
  else if c = '\t' then ['\\', 't']
  else if c.toNat < 32 then ['\\', 'u', '0', '0', hexDigit (c.toNat / 16), hexDigit (c.toNat % 16)]
  else [c]

/-- `JSON.stringify` on the modelled scalar values. -/
def jsonStringify : JsValue → String
  | .vstr s => ⟨'"' :: (s.data.flatMap jsonEscChar ++ ['"'])⟩
  | .vnum n => toString n
  | .vbool true => "true"
  | .vbool false => "false"
  | .vnull => "null"

/-- `typeof v === 'string' ? v : JSON.stringify(v)`. -/
def coerceVal : JsValue → String
  | .vstr s => s
  | v => jsonStringify v

/-- `out[kk] = v` on an object: overwrite in place if the key exists
(keeping its original position), otherwise append. -/
def insertAssoc (m : List (String × String)) (k v : String) : List (String × String) :=
  if m.any (fun p => p.1 == k) then m.map (fun p => if p.1 == k then (k, v) else p)
  else m ++ [(k, v)]

/-- Property lookup on an object modelled as an association list. -/
def lookupA (k : String) : List (String × String) → Option String
  | [] => none
  | p :: rest => if p.1 = k then some p.2 else lookupA k rest

/-- The `normalize` utility: `obj || {}` is modelled by `Option.getD`
(a `null`/`undefined` body yields the empty object). -/
def normalize (obj : Option (List (String × JsValue))) : List (String × String) :=
  (obj.getD []).foldl
    (fun out p => insertAssoc out (jsLower p.1) (coerceVal p.2)) []

/-! ## Payload validation (zod schema), defaulting, rendering, dispatch

The zod schema:
```
z.object({
  name: z.string().min(1).max(120).optional(),
  email: z.string().email(),
  subject: z.string().max(160).optional(),
  message: z.string().max(5000).optional(),
  page: z.string().optional(),
  location: z.string().optional(),
}).passthrough()
```
Every value of a normalized body is already a string, so only the length
bounds and the email format matter.  The zod email format check lives in
the zod library, outside this repository: it is abstracted as a Boolean
predicate `emailValid` passed explicitly; the handler branches only on
whether it accepts the submitted address. -/

/-- `String.prototype.trim`: strip whitespace at both ends. -/
def jsTrim (s : String) : String :=
  ⟨((s.data.dropWhile Char.isWhitespace).reverse.dropWhile
      Char.isWhitespace).reverse⟩

/-- The typed fields of a parsed payload (extra keys stay in the
normalized body, which the handler keeps using alongside). -/
structure SubmissionData where
  name : Option String
  email : String
  subject : Option String
  message : Option String
  page : Option String
  location : Option String
deriving DecidableEq

/-- Names of the schema fields whose checks fail on `body`
(`err.flatten()` detail, one entry per failing field). -/
def fieldErrs (emailValid : String → Bool) (body : List (String × String)) :
    List String :=
  (match lookupA "name" body with
   | some s => if 1 ≤ s.data.length ∧ s.data.length ≤ 120 then [] else ["name"]
   | none => []) ++
  (match lookupA "email" body with
   | some s => if emailValid s then [] else ["email"]
   | none => ["email"]) ++
  (match lookupA "subject" body with
   | some s => if s.data.length ≤ 160 then [] else ["subject"]
   | none => []) ++
  (match lookupA "message" body with
   | some s => if s.data.length ≤ 5000 then [] else ["message"]
   | none => [])

/-- `Payload.parse(body)`: succeeds iff no field check fails; a
`ZodError` carries the failing fields. -/
def payloadParse (emailValid : String → Bool) (body : List (String × String)) :
    Except (List String) SubmissionData :=
  match lookupA "email" body with
  | none => .error (fieldErrs emailValid body)
  | some e =>
    let errs := fieldErrs emailValid body
    if errs.isEmpty then
      .ok { name := lookupA "name" body, email := e,
            subject := lookupA "subject" body,
            message := lookupA "message" body,
            page := lookupA "page" body,
            location := lookupA "location" body }
    else .error errs

/-- `(data.subject || 'Website Inquiry').trim()` — JavaScript `||`
takes the default on the falsy values `undefined` and `""`. -/
def effSubject (d : SubmissionData) : String :=
  jsTrim (match d.subject with
    | some s => if s = "" then "Website Inquiry" else s
    | none => "Website Inquiry")

/-- `(data.name || 'Visitor').trim()`. -/
def effName (d : SubmissionData) : String :=
  jsTrim (match d.name with
    | some s => if s = "" then "Visitor" else s
    | none => "Visitor")

/-- ``Object.entries(body).map(([k, v]) => `${k}: ${v}`).join('\n')``. -/
def fieldDump (body : List (String × String)) : String :=
  String.intercalate "\n" (body.map (fun p => p.1 ++ ": " ++ p.2))

/-- `(data.message && data.message.trim()) || <field dump>`. -/
def effMessage (d : SubmissionData) (body : List (String × String)) : String :=
  match d.message with
  | some m => if jsTrim m = "" then fieldDump body else jsTrim m
  | none => fieldDump body

/-- ``${data.location ? `<p><b>Location:</b> ${esc(data.location)}</p>` : ''}``. -/
def locationFrag (d : SubmissionData) : String :=
  match d.location with
  | some l => if l = "" then "" else "<p><b>Location:</b> " ++ esc l ++ "</p>"
  | none => ""

/-- ``${data.page ? `<p><b>Page:</b> ${esc(data.page)}</p>` : ''}``. -/
def pageFrag (d : SubmissionData) : String :=
  match d.page with
  | some p => if p = "" then "" else "<p><b>Page:</b> " ++ esc p ++ "</p>"
  | none => ""

/-- `.replaceAll('\n','<br/>')`. -/
def nl2br (s : String) : String := ⟨replaceAllChar '\n' "<br/>".data s.data⟩

/-- The owner notification template literal, verbatim. -/
def ownerHtml (d : SubmissionData) (body : List (String × String)) : String :=
  "\n      <div style=\"font-family:system-ui,Segoe UI,Arial,sans-serif\">\n        <h2>New form submission</h2>\n        <p><b>Name:</b> "
    ++ esc (effName d) ++ "</p>\n        <p><b>Email:</b> " ++ esc d.email
    ++ "</p>\n        " ++ locationFrag d ++ "\n        " ++ pageFrag d
    ++ "\n        <p><b>Subject:</b> " ++ esc (effSubject d)
    ++ "</p>\n        <p><b>Message / Fields:</b><br/>"
    ++ nl2br (esc (effMessage d body)) ++ "</p>\n      </div>"

/-- The auto-reply template literal, verbatim. -/
def userHtml (d : SubmissionData) (body : List (String × String)) : String :=
  "\n      <div style=\"font-family:system-ui,Segoe UI,Arial,sans-serif\">\n        <p>Hi "
    ++ esc (effName d)
    ++ ",</p>\n        <p>Thanks for reaching out. We received your submission and will get back to you shortly.</p>\n        <hr>\n        <p><b>Your submission</b></p>\n        <pre style=\"white-space:pre-wrap\">"
    ++ esc (effMessage d body)
    ++ "</pre>\n        <p>— Team</p>\n      </div>"

/-- The environment configuration the handler reads (`MAIL_FROM`, `MAIL_TO`). -/
structure Config where
  mailFrom : String
  mailTo : String
deriving DecidableEq

/-- One `resend.emails.send({...})` argument record. -/
structure SendCall where
  sendFrom : String
  sendTo : String
  replyTo : Option String
  subject : String
  html : String
deriving DecidableEq

/-- The JSON response bodies the handler can produce. -/
inductive RespBody where
  | okTrue
  | validationError (details : List String)
  | serverError
deriving DecidableEq

/-- An HTTP response: status code and JSON body. -/
structure Resp where
  status : Nat
  body : RespBody
deriving DecidableEq

/-- First (operator notification) send call. -/
def ownerCall (cfg : Config) (d : SubmissionData)
    (body : List (String × String)) : SendCall :=
  { sendFrom := cfg.mailFrom, sendTo := cfg.mailTo, replyTo := some d.email,
    subject := "📝 New form submission: " ++ effSubject d,
    html := ownerHtml d body }

/-- Second (auto-reply) send call. -/
def userCall (cfg : Config) (d : SubmissionData)
    (body : List (String × String)) : SendCall :=
  { sendFrom := cfg.mailFrom, sendTo := d.email, replyTo := none,
    subject := "We got your message: " ++ effSubject d,
    html := userHtml d body }

/-- The `POST /api/form/submit` handler: normalize, validate, render and
dispatch the two sends sequentially.  `send1ok`/`send2ok` give the
outcome of each provider call; a rejected first call throws before the
second is reached, and any throw lands in the catch block.  Returns the
response and the list of send calls issued, in dispatch order. -/
def handleSubmit (emailValid : String → Bool) (cfg : Config)
    (send1ok send2ok : Bool) (reqBody : Option (List (String × JsValue))) :
    Resp × List SendCall :=
  let body := normalize reqBody
  match payloadParse emailValid body with
  | .error det => ({ status := 400, body := .validationError det }, [])
  | .ok d =>
    if send1ok then
      if send2ok then
        ({ status := 200, body := .okTrue },
          [ownerCall cfg d body, userCall cfg d body])
      else
        ({ status := 500, body := .serverError },
          [ownerCall cfg d body, userCall cfg d body])
    else
      ({ status := 500, body := .serverError }, [ownerCall cfg d body])

/-- Substring test: does `needle` occur contiguously in `hay`? -/
def strContains : List Char → List Char → Bool
  | [], needle => needle.isEmpty
  | c :: t, needle => needle.isPrefixOf (c :: t) || strContains t needle


/-! ## Supporting lemmas -/

theorem replaceAllChar_append (t : Char) (rep : List Char) (xs ys : List Char) :
    replaceAllChar t rep (xs ++ ys) =
      replaceAllChar t rep xs ++ replaceAllChar t rep ys := by
  induction xs with
  | nil => rfl
  | cons c cs ih => simp [replaceAllChar, ih]

theorem escList_append (xs ys : List Char) :
    escList (xs ++ ys) = escList xs ++ escList ys := by
  simp [escList, replaceAllChar_append]

theorem escList_eq_flatMap (l : List Char) : escList l = l.flatMap escChar := by
  induction l with
  | nil => rfl
  | cons c cs ih =>
    have h1 : escList (c :: cs) = escList [c] ++ escList cs := by
      simpa using escList_append [c] cs
    have h2 : escList [c] = escChar c := by
      by_cases ha : c = '&'
      · subst ha; rfl
      · by_cases hl : c = '<'
        · subst hl; rfl
        · by_cases hg : c = '>'
          · subst hg; rfl
          · simp [escList, replaceAllChar, escChar, ha, hl, hg]
    rw [h1, h2, ih, List.flatMap_cons]

theorem escChar_nonspecial {c : Char} (h : isSpecial c = false) : escChar c = [c] := by
  simp only [isSpecial, Bool.or_eq_false_iff, beq_eq_false_iff_ne, ne_eq] at h
  simp [escChar, h.1.1, h.1.2, h.2]

theorem escList_id_of_nonspecial {l : List Char}
    (h : ∀ c ∈ l, isSpecial c = false) : escList l = l := by
  rw [escList_eq_flatMap]
  induction l with
  | nil => rfl
  | cons c cs ih =>
    rw [List.flatMap_cons, escChar_nonspecial (h c (by simp)),
      ih (fun d hd => h d (by simp [hd]))]
    rfl

theorem length_le_length_escList (l : List Char) : l.length ≤ (escList l).length := by
  rw [escList_eq_flatMap]
  induction l with
  | nil => simp
  | cons c cs ih =>
    rw [List.flatMap_cons, List.length_append, List.length_cons]
    have hc : 1 ≤ (escChar c).length := by
      unfold escChar
      split <;> try simp
      split <;> try simp
      split <;> simp
    omega

theorem length_lt_length_escList {l : List Char} {c : Char}
    (hc : c ∈ l) (hs : isSpecial c = true) : l.length < (escList l).length := by
  rw [escList_eq_flatMap]
  induction l with
  | nil => simp at hc
  | cons d ds ih =>
    rw [List.flatMap_cons, List.length_append, List.length_cons]
    rcases List.mem_cons.mp hc with h | h
    · subst h
      have h4 : 4 ≤ (escChar c).length := by
        simp only [isSpecial, Bool.or_eq_true, beq_iff_eq] at hs
        rcases hs with (h | h) | h <;> subst h <;> simp [escChar]
      have := length_le_length_escList ds
      rw [escList_eq_flatMap] at this
      omega
    · have h1 : 1 ≤ (escChar d).length := by
        unfold escChar
        split <;> try simp
        split <;> try simp
        split <;> simp
      have := ih h
      omega

theorem amp_mem_escList {l : List Char} {c : Char}
    (hc : c ∈ l) (hs : isSpecial c = true) : '&' ∈ escList l := by
  rw [escList_eq_flatMap]
  induction l with
  | nil => simp at hc
  | cons d ds ih =>
    rw [List.flatMap_cons, List.mem_append]
    rcases List.mem_cons.mp hc with h | h
    · subst h
      left
      simp only [isSpecial, Bool.or_eq_true, beq_iff_eq] at hs
      rcases hs with (h | h) | h <;> subst h <;> simp [escChar]
    · exact Or.inr (ih h)

theorem escList_escList_eq_iff (l : List Char) :
    escList (escList l) = escList l ↔ ∀ c ∈ l, isSpecial c = false := by
  constructor
  · intro h
    by_contra hex
    push_neg at hex
    obtain ⟨c, hcl, hcs⟩ := hex
    have hcs' : isSpecial c = true := by
      cases hb : isSpecial c
      · exact absurd hb hcs
      · rfl
    have hamp : '&' ∈ escList l := amp_mem_escList hcl hcs'
    have hlt : (escList l).length < (escList (escList l)).length :=
      length_lt_length_escList hamp (by decide)
    rw [h] at hlt
    exact absurd hlt (lt_irrefl _)
  · intro h
    rw [escList_id_of_nonspecial h, escList_id_of_nonspecial h]

theorem noBareAmp_escChar_append (c : Char) (rest : List Char)
    (h : noBareAmp rest = true) : noBareAmp (escChar c ++ rest) = true := by
  by_cases ha : c = '&'
  · subst ha
    simpa [escChar, noBareAmp, List.isPrefixOf] using h
  · by_cases hl : c = '<'
    · subst hl
      simpa [escChar, noBareAmp, List.isPrefixOf] using h
    · by_cases hg : c = '>'
      · subst hg
        simpa [escChar, noBareAmp, List.isPrefixOf] using h
      · simpa [escChar, noBareAmp, ha, hl, hg] using h

theorem no_lt_gt_escChar (c d : Char) (hd : d ∈ escChar c) :
    d ≠ '<' ∧ d ≠ '>' := by
  unfold escChar at hd
  by_cases ha : c = '&'
  · simp [ha] at hd
    rcases hd with h | h | h | h | h <;> subst h <;> exact ⟨by decide, by decide⟩
  · by_cases hl : c = '<'
    · simp [ha, hl] at hd
      rcases hd with h | h | h | h <;> subst h <;> exact ⟨by decide, by decide⟩
    · by_cases hg : c = '>'
      · simp [ha, hl, hg] at hd
        rcases hd with h | h | h | h <;> subst h <;> exact ⟨by decide, by decide⟩
      · simp [ha, hl, hg] at hd
        subst hd
        constructor <;> intro h <;> subst h <;> simp_all

theorem escSafe_esc (s : String) : escSafe (esc s) = true := by
  unfold escSafe esc
  rw [Bool.and_eq_true]
  constructor
  · rw [List.all_eq_true]
    intro c hc
    show (c != '<' && c != '>') = true
    rw [escList_eq_flatMap, List.mem_flatMap] at hc
    obtain ⟨d, _, hd⟩ := hc
    obtain ⟨h1, h2⟩ := no_lt_gt_escChar d c hd
    simp [h1, h2]
  · show noBareAmp (escList s.data) = true
    rw [escList_eq_flatMap]
    induction s.data with
    | nil => rfl
    | cons c cs ih =>
      rw [List.flatMap_cons]
      exact noBareAmp_escChar_append c _ ih

theorem toLower_toLower (c : Char) : c.toLower.toLower = c.toLower := by
  unfold Char.toLower
  by_cases h : c.toNat ≥ 65 ∧ c.toNat ≤ 90
  · rw [if_pos h]
    obtain ⟨h1, h2⟩ := h
    generalize hn : c.toNat = n at h1 h2
    interval_cases n <;> decide
  · rw [if_neg h, if_neg h]

theorem jsLower_jsLower (s : String) : jsLower (jsLower s) = jsLower s := by
  unfold jsLower
  exact congrArg String.mk
    (by rw [List.map_map]; exact List.map_congr_left (fun c _ => toLower_toLower c))

/-! ## Lookup and overwrite lemmas for `normalize` -/

theorem lookupA_map_overwrite_ne {k kk v : String} (m : List (String × String))
    (hne : kk ≠ k) :
    lookupA kk (m.map (fun p => if p.1 == k then (k, v) else p)) = lookupA kk m := by
  induction m with
  | nil => rfl
  | cons p m' ih =>
    by_cases hpk : p.1 = k
    · simp only [List.map_cons, lookupA, hpk, beq_self_eq_true, if_true]
      rw [if_neg (fun h => hne h.symm), if_neg (fun h => hne h.symm), ih]
    · simp only [List.map_cons, lookupA, beq_eq_false_iff_ne.mpr hpk, Bool.false_eq_true,
        if_false]
      by_cases hpkk : p.1 = kk
      · rw [if_pos hpkk, if_pos hpkk]
      · rw [if_neg hpkk, if_neg hpkk, ih]

theorem lookupA_map_overwrite_eq {k v : String} (m : List (String × String))
    (hany : m.any (fun p => p.1 == k) = true) :
    lookupA k (m.map (fun p => if p.1 == k then (k, v) else p)) = some v := by
  induction m with
  | nil => simp at hany
  | cons p m' ih =>
    by_cases hpk : p.1 = k
    · simp [List.map_cons, lookupA, hpk]
    · simp only [List.map_cons, lookupA, beq_eq_false_iff_ne.mpr hpk, Bool.false_eq_true,
        if_false]
      rw [if_neg hpk]
      exact ih (by simpa [hpk] using hany)

theorem lookupA_eq_none_of_any_false {k : String} (m : List (String × String))
    (hany : m.any (fun p => p.1 == k) = false) : lookupA k m = none := by
  induction m with
  | nil => rfl
  | cons p m' ih =>
    simp only [List.any_cons, Bool.or_eq_false_iff] at hany
    simp only [lookupA, if_neg (by simpa using hany.1)]
    exact ih hany.2

theorem lookupA_append_none {kk : String} (m m₂ : List (String × String))
    (h : lookupA kk m = none) : lookupA kk (m ++ m₂) = lookupA kk m₂ := by
  induction m with
  | nil => rfl
  | cons p m' ih =>
    simp only [lookupA] at h
    by_cases hp : p.1 = kk
    · rw [if_pos hp] at h; exact absurd h (by simp)
    · rw [if_neg hp] at h
      simp only [List.cons_append, lookupA, if_neg hp]
      exact ih h

theorem lookupA_concat_ne {k kk v : String} (m : List (String × String))
    (hne : kk ≠ k) : lookupA kk (m ++ [(k, v)]) = lookupA kk m := by
  induction m with
  | nil =>
    show (if k = kk then some v else lookupA kk []) = none
    rw [if_neg (fun h => hne h.symm)]
    rfl
  | cons p m' ih =>
    by_cases hp : p.1 = kk
    · simp [lookupA, hp]
    · simp only [List.cons_append, lookupA, if_neg hp]
      exact ih

theorem lookupA_insertAssoc (m : List (String × String)) (k v kk : String) :
    lookupA kk (insertAssoc m k v) = if kk = k then some v else lookupA kk m := by
  unfold insertAssoc
  by_cases hany : m.any (fun p => p.1 == k) = true
  · rw [if_pos hany]
    by_cases hkk : kk = k
    · subst hkk
      rw [if_pos rfl]
      exact lookupA_map_overwrite_eq m hany
    · rw [if_neg hkk]
      exact lookupA_map_overwrite_ne m hkk
  · have hany' : m.any (fun p => p.1 == k) = false := by
      cases hb : m.any (fun p => p.1 == k)
      · rfl
      · exact absurd hb hany
    rw [if_neg hany]
    by_cases hkk : kk = k
    · subst hkk
      rw [if_pos rfl, lookupA_append_none m _ (lookupA_eq_none_of_any_false m hany')]
      simp [lookupA]
    · rw [if_neg hkk]
      exact lookupA_concat_ne m hkk

theorem normalize_concat (obj : List (String × JsValue)) (x : String × JsValue) :
    normalize (some (obj ++ [x])) =
      insertAssoc (normalize (some obj)) (jsLower x.1) (coerceVal x.2) := by
  unfold normalize
  rw [Option.getD_some, Option.getD_some, List.foldl_append]
  rfl

theorem lookupA_normalize (obj : List (String × JsValue)) (kk : String) :
    lookupA kk (normalize (some obj)) =
      Option.map (fun p => coerceVal p.2)
        (obj.reverse.find? (fun p => jsLower p.1 == kk)) := by
  induction obj using List.reverseRecOn with
  | nil => rfl
  | append_singleton obj x ih =>
    rw [normalize_concat, lookupA_insertAssoc, List.reverse_append]
    simp only [List.reverse_singleton, List.singleton_append]
    by_cases hx : jsLower x.1 = kk
    · rw [if_pos hx.symm, List.find?_cons_of_pos _ (by simpa using hx)]
      rfl
    · rw [if_neg (fun h => hx h.symm),
        List.find?_cons_of_neg _ (by simpa using hx), ih]

theorem mem_insertAssoc {m : List (String × String)} {k v : String}
    {p : String × String} (hp : p ∈ insertAssoc m k v) : p ∈ m ∨ p = (k, v) := by
  unfold insertAssoc at hp
  split at hp
  · obtain ⟨q, hq, hfq⟩ := List.mem_map.mp hp
    by_cases hqk : q.1 = k
    · right
      rw [← hfq]
      simp [hqk]
    · left
      rw [← hfq]
      simpa [hqk] using hq
  · rcases List.mem_append.mp hp with h | h
    · exact Or.inl h
    · exact Or.inr (by simpa using h)

theorem jsLower_fst_of_foldl (obj : List (String × JsValue)) :
    ∀ acc : List (String × String), (∀ p ∈ acc, jsLower p.1 = p.1) →
      ∀ p ∈ obj.foldl (fun out q => insertAssoc out (jsLower q.1) (coerceVal q.2)) acc,
        jsLower p.1 = p.1 := by
  induction obj with
  | nil => exact fun acc hacc p hp => hacc p hp
  | cons q obj' ih =>
    intro acc hacc p hp
    refine ih _ ?_ p hp
    intro r hr
    rcases mem_insertAssoc hr with h | h
    · exact hacc r h
    · subst h
      exact jsLower_jsLower q.1

theorem keys_insertAssoc (m : List (String × String)) (k v : String) :
    (insertAssoc m k v).map Prod.fst =
      if m.any (fun p => p.1 == k) then m.map Prod.fst
      else m.map Prod.fst ++ [k] := by
  unfold insertAssoc
  by_cases h : m.any (fun p => p.1 == k) = true
  · rw [if_pos h, if_pos h, List.map_map]
    apply List.map_congr_left
    intro q _
    by_cases hqk : q.1 = k
    · simp [hqk]
    · simp [hqk]
  · rw [if_neg h, if_neg h, List.map_append]
    rfl

theorem nodup_keys_foldl (obj : List (String × JsValue)) :
    ∀ acc : List (String × String), (acc.map Prod.fst).Nodup →
      ((obj.foldl (fun out q => insertAssoc out (jsLower q.1) (coerceVal q.2))
        acc).map Prod.fst).Nodup := by
  induction obj with
  | nil => exact fun acc h => h
  | cons q obj' ih =>
    intro acc hacc
    apply ih
    rw [keys_insertAssoc]
    by_cases h : acc.any (fun p => p.1 == jsLower q.1) = true
    · rw [if_pos h]
      exact hacc
    · rw [if_neg h]
      have hnot : jsLower q.1 ∉ acc.map Prod.fst := by
        intro hmem
        obtain ⟨p, hp, hpe⟩ := List.mem_map.mp hmem
        exact h (List.any_eq_true.mpr ⟨p, hp, by simp [hpe]⟩)
      simp [List.nodup_append, hacc, hnot]

theorem foldl_insertAssoc_fresh (l : List (String × String)) :
    ∀ acc : List (String × String),
      (∀ p ∈ l, jsLower p.1 = p.1) →
      (acc.map Prod.fst ++ l.map Prod.fst).Nodup →
      (l.map (fun p => (p.1, JsValue.vstr p.2))).foldl
        (fun out q => insertAssoc out (jsLower q.1) (coerceVal q.2)) acc = acc ++ l := by
  induction l with
  | nil =>
    intro acc _ _
    simp
  | cons x l' ih =>
    intro acc hlow hnd
    simp only [List.map_cons, List.foldl_cons]
    have hx : jsLower x.1 = x.1 := hlow x (by simp)
    have hnot : x.1 ∉ acc.map Prod.fst := by
      intro hmem
      simp only [List.map_cons, List.nodup_append] at hnd
      exact hnd.2.2 hmem (by simp)
    have hany : acc.any (fun p => p.1 == x.1) = false := by
      rw [Bool.eq_false_iff]
      intro hab
      obtain ⟨p, hp, hpe⟩ := List.any_eq_true.mp hab
      exact hnot (List.mem_map.mpr ⟨p, hp, by simpa using hpe⟩)
    have hstep :
        insertAssoc acc (jsLower x.1) (coerceVal (JsValue.vstr x.2)) = acc ++ [x] := by
      rw [hx]
      unfold insertAssoc
      rw [if_neg (by simp [hany])]
      rfl
    rw [hstep, ih (acc ++ [x]) (fun p hp => hlow p (by simp [hp]))]
    · simp
    · have h2 : (acc ++ [x]).map Prod.fst ++ l'.map Prod.fst =
          acc.map Prod.fst ++ (x :: l').map Prod.fst := by
        simp [List.append_assoc]
      rw [h2]
      exact hnd

/-! ## Claim theorems -/

/-- C5: `esc` maps `&`, `<`, `>` to exactly one fixed entity each, with the
ampersand replacement first (so `esc "<"` is `&lt;`, not `&amp;lt;`), and a
second application of `esc` leaves a string unchanged if and only if the
original contains none of `&`, `<`, `>`. -/
theorem esc_entities_and_double_escape :
    esc "&" = "&amp;" ∧ esc "<" = "&lt;" ∧ esc ">" = "&gt;" ∧
    ∀ s : String, (esc (esc s) = esc s ↔ ∀ c ∈ s.data, isSpecial c = false) := by
  refine ⟨rfl, rfl, rfl, fun s => ?_⟩
  constructor
  · intro h
    refine (escList_escList_eq_iff s.data).mp ?_
    have h2 := congrArg String.data h
    exact h2
  · intro h
    show (⟨escList (escList s.data)⟩ : String) = ⟨escList s.data⟩
    rw [(escList_escList_eq_iff s.data).mpr h]

/-- C9: `esc` is a homomorphism for string concatenation, rewrites each
character independently (identity on every character other than
`&`, `<`, `>`), and is the identity on strings without those characters. -/
theorem esc_concat_homomorphism :
    (∀ a b : String, esc (a ++ b) = esc a ++ esc b) ∧
    (∀ c : Char, isSpecial c = false → escChar c = [c]) ∧
    (∀ s : String, (∀ c ∈ s.data, isSpecial c = false) → esc s = s) := by
  refine ⟨?_, fun c h => escChar_nonspecial h, ?_⟩
  · intro a b
    cases a with
    | mk la =>
      cases b with
      | mk lb =>
        show (⟨escList (la ++ lb)⟩ : String) = ⟨escList la ++ escList lb⟩
        rw [escList_append]
  · intro s h
    cases s with
    | mk l =>
      show (⟨escList l⟩ : String) = ⟨l⟩
      rw [escList_id_of_nonspecial h]

/-- C9 witness: the homomorphism equation at `"a&"`, `"<b"`, character
preservation at `'x'`, and identity on `"plain"`. -/
theorem esc_concat_homomorphism_witness :
    esc ("a&" ++ "<b") = esc "a&" ++ esc "<b" ∧
    escChar 'x' = ['x'] ∧ esc "plain" = "plain" :=
  ⟨esc_concat_homomorphism.1 "a&" "<b",
   esc_concat_homomorphism.2.1 'x' (by decide),
   esc_concat_homomorphism.2.2 "plain" (by decide)⟩

/-- C10: `normalize` is idempotent — re-normalizing its own output (whose
values are all strings) returns it unchanged — and a `null`/`undefined`
body normalizes to the empty object. -/
theorem normalize_idempotent (reqBody : Option (List (String × JsValue))) :
    normalize (some ((normalize reqBody).map (fun p => (p.1, JsValue.vstr p.2)))) =
      normalize reqBody ∧
    normalize none = [] := by
  refine ⟨?_, rfl⟩
  have hlow : ∀ p ∈ normalize reqBody, jsLower p.1 = p.1 := by
    cases reqBody with
    | none => intro p hp; cases hp
    | some obj => exact jsLower_fst_of_foldl obj [] (by intro p hp; cases hp)
  have hnd : ((normalize reqBody).map Prod.fst).Nodup := by
    cases reqBody with
    | none => exact List.nodup_nil
    | some obj => exact nodup_keys_foldl obj [] List.nodup_nil
  have hmain := foldl_insertAssoc_fresh (normalize reqBody) [] hlow (by simpa using hnd)
  simpa [normalize] using hmain

/-- C7: `normalize` lowercases every top-level key, leaves string values
unchanged, coerces every non-string value to its `JSON.stringify` text, and
when two keys collide after lowercasing, the latter-processed entry's value
wins (lookup returns the value of the last entry whose lowercased key
matches). -/
theorem normalize_spec (k : String) (v : JsValue)
    (obj : List (String × JsValue)) (kk : String) :
    normalize (some [(k, v)]) = [(jsLower k, coerceVal v)] ∧
    (∀ s, coerceVal (JsValue.vstr s) = s) ∧
    ((∀ s, v ≠ JsValue.vstr s) → coerceVal v = jsonStringify v) ∧
    lookupA kk (normalize (some obj)) =
      Option.map (fun p => coerceVal p.2)
        (obj.reverse.find? (fun p => jsLower p.1 == kk)) := by
  refine ⟨rfl, fun s => rfl, ?_, lookupA_normalize obj kk⟩
  intro h
  cases v with
  | vstr s => exact absurd rfl (h s)
  | vnum n => rfl
  | vbool b => rfl
  | vnull => rfl

/-- C7 witness: `{"Email": 5}` normalizes to `{"email": "5"}`, the number
is JSON-stringified, and with both `"Email"` and `"email"` present the
later entry's value is returned. -/
theorem normalize_spec_witness :
    normalize (some [("Email", JsValue.vnum 5)]) =
      [(jsLower "Email", coerceVal (JsValue.vnum 5))] ∧
    coerceVal (JsValue.vnum 5) = jsonStringify (JsValue.vnum 5) ∧
    lookupA "email"
        (normalize (some [("Email", JsValue.vstr "a"), ("email", JsValue.vstr "b")])) =
      Option.map (fun p => coerceVal p.2)
        ([("Email", JsValue.vstr "a"), ("email", JsValue.vstr "b")].reverse.find?
          (fun p => jsLower p.1 == "email")) :=
  ⟨(normalize_spec "Email" (JsValue.vnum 5) [] "x").1,
   (normalize_spec "Email" (JsValue.vnum 5) [] "x").2.2.1
     (fun _ h => JsValue.noConfusion h),
   (normalize_spec "k" JsValue.vnull
     [("Email", JsValue.vstr "a"), ("email", JsValue.vstr "b")] "email").2.2.2⟩

/-- C4 counterexample: with body
`{email: "a@b.com", name: " ", subject: " "}` both `name` and `subject`
are blank after trimming, yet the effective name is `""` (not
`"Visitor"`) and the effective subject is `""` (not `"Website Inquiry"`):
JavaScript `||` only falls back on the empty string, and the `.trim()` is
applied after the defaulting. -/
theorem eff_defaults_blank_counterexample :
    payloadParse (fun _ => true)
        (normalize (some [("email", JsValue.vstr "a@b.com"),
          ("name", JsValue.vstr " "), ("subject", JsValue.vstr " ")])) =
      .ok { name := some " ", email := "a@b.com", subject := some " ",
            message := none, page := none, location := none } ∧
    effName { name := some " ", email := "a@b.com", subject := some " ",
              message := none, page := none, location := none } = "" ∧
    effSubject { name := some " ", email := "a@b.com", subject := some " ",
                 message := none, page := none, location := none } = "" ∧
    ("" : String) ≠ "Visitor" ∧ ("" : String) ≠ "Website Inquiry" := by
  refine ⟨?_, by decide, by decide, by decide, by decide⟩
  rfl

/-- C4 amended: the effective name is `"Visitor"` when the submitted name
is absent or the empty string (otherwise it is the trimmed submitted
name, possibly empty); the effective subject is `"Website Inquiry"` when
the submitted subject is absent or the empty string (otherwise the
trimmed submitted subject); the effective message is the trimmed
submitted message when present and non-blank after trimming, else the
join of every normalized field as `key: value` lines in iteration
order. -/
theorem eff_defaults (d : SubmissionData) (body : List (String × String)) :
    ((d.name = none ∨ d.name = some "") → effName d = "Visitor") ∧
    (∀ s, d.name = some s → s ≠ "" → effName d = jsTrim s) ∧
    ((d.subject = none ∨ d.subject = some "") → effSubject d = "Website Inquiry") ∧
    (∀ s, d.subject = some s → s ≠ "" → effSubject d = jsTrim s) ∧
    (∀ m, d.message = some m → jsTrim m ≠ "" → effMessage d body = jsTrim m) ∧
    ((d.message = none ∨ ∃ m, d.message = some m ∧ jsTrim m = "") →
      effMessage d body = fieldDump body) := by
  refine ⟨?_, ?_, ?_, ?_, ?_, ?_⟩
  · rintro (h | h) <;> simp [effName, h] <;> decide
  · intro s hs hne
    simp [effName, hs, hne]
  · rintro (h | h) <;> simp [effSubject, h] <;> decide
  · intro s hs hne
    simp [effSubject, hs, hne]
  · intro m hm hne
    simp [effMessage, hm, hne]
  · rintro (h | ⟨m, hm, hm0⟩) <;> simp [effMessage, *]

/-- C4 amended, witness: name `"Jo"` present and non-blank, subject
absent, message `"  "` blank after trimming. -/
theorem eff_defaults_witness :
    effName { name := some "Jo", email := "a@b.com", subject := none,
              message := some "  ", page := none, location := none } = jsTrim "Jo" ∧
    effSubject { name := some "Jo", email := "a@b.com", subject := none,
                 message := some "  ", page := none, location := none } = "Website Inquiry" ∧
    effMessage { name := some "Jo", email := "a@b.com", subject := none,
                 message := some "  ", page := none, location := none } [("k", "v")] =
      fieldDump [("k", "v")] :=
  ⟨(eff_defaults _ [("k", "v")]).2.1 "Jo" rfl (by decide),
   (eff_defaults _ [("k", "v")]).2.2.1 (Or.inl rfl),
   (eff_defaults _ [("k", "v")]).2.2.2.2.2 (Or.inr ⟨"  ", rfl, by decide⟩)⟩

/-- C6: body `{"email": "a@b.com"}` alone (with a validator accepting
that address) parses, and the effective name, subject and message are
`"Visitor"`, `"Website Inquiry"` and `"email: a@b.com"` (field-dump
defaulting). -/
theorem single_email_field_defaults (emailValid : String → Bool)
    (h : emailValid "a@b.com" = true) :
    payloadParse emailValid (normalize (some [("email", JsValue.vstr "a@b.com")])) =
      .ok { name := none, email := "a@b.com", subject := none, message := none,
            page := none, location := none } ∧
    effName { name := none, email := "a@b.com", subject := none, message := none,
              page := none, location := none } = "Visitor" ∧
    effSubject { name := none, email := "a@b.com", subject := none, message := none,
                 page := none, location := none } = "Website Inquiry" ∧
    effMessage { name := none, email := "a@b.com", subject := none, message := none,
                 page := none, location := none }
        (normalize (some [("email", JsValue.vstr "a@b.com")])) = "email: a@b.com" := by
  have hb : normalize (some [("email", JsValue.vstr "a@b.com")]) =
      [("email", "a@b.com")] := by decide
  refine ⟨?_, by decide, by decide, by decide⟩
  rw [hb]
  simp [payloadParse, fieldErrs, lookupA, h]

/-- C6 witness: the always-true validator accepts `"a@b.com"`. -/
theorem single_email_field_defaults_witness :
    payloadParse (fun _ => true) (normalize (some [("email", JsValue.vstr "a@b.com")])) =
      .ok { name := none, email := "a@b.com", subject := none, message := none,
            page := none, location := none } ∧
    effName { name := none, email := "a@b.com", subject := none, message := none,
              page := none, location := none } = "Visitor" ∧
    effSubject { name := none, email := "a@b.com", subject := none, message := none,
                 page := none, location := none } = "Website Inquiry" ∧
    effMessage { name := none, email := "a@b.com", subject := none, message := none,
                 page := none, location := none }
        (normalize (some [("email", JsValue.vstr "a@b.com")])) = "email: a@b.com" :=
  single_email_field_defaults (fun _ => true) rfl

/-- C1: for every body that parses (valid email, length bounds met), with
both provider calls succeeding, the handler responds 200 `{ok:true}` and
issues exactly the two send calls, whose every user-supplied value is
interpolated through `esc`, which yields no raw `<`, no raw `>`, and no
bare `&` (every ampersand starts a fixed entity). -/
theorem submit_valid_two_escaped_sends (emailValid : String → Bool) (cfg : Config)
    (reqBody : Option (List (String × JsValue))) (d : SubmissionData)
    (hp : payloadParse emailValid (normalize reqBody) = .ok d) :
    handleSubmit emailValid cfg true true reqBody =
      ({ status := 200, body := .okTrue },
        [ownerCall cfg d (normalize reqBody), userCall cfg d (normalize reqBody)]) ∧
    (handleSubmit emailValid cfg true true reqBody).2.length = 2 ∧
    escSafe (esc (effName d)) = true ∧ escSafe (esc d.email) = true ∧
    escSafe (esc (effSubject d)) = true ∧
    escSafe (esc (effMessage d (normalize reqBody))) = true ∧
    (∀ l, d.location = some l → escSafe (esc l) = true) ∧
    (∀ p, d.page = some p → escSafe (esc p) = true) := by
  have h1 : handleSubmit emailValid cfg true true reqBody =
      ({ status := 200, body := .okTrue },
        [ownerCall cfg d (normalize reqBody), userCall cfg d (normalize reqBody)]) := by
    simp only [handleSubmit]
    rw [hp]
    rfl
  exact ⟨h1, by rw [h1]; rfl, escSafe_esc _, escSafe_esc _, escSafe_esc _, escSafe_esc _,
    fun l _ => escSafe_esc l, fun p _ => escSafe_esc p⟩

/-- C1 witness: a single-field valid body with both sends succeeding. -/
theorem submit_valid_two_escaped_sends_witness :
    handleSubmit (fun _ => true) { mailFrom := "from@x.test", mailTo := "to@x.test" }
        true true (some [("email", JsValue.vstr "a@b.com")]) =
      ({ status := 200, body := .okTrue },
        [ownerCall { mailFrom := "from@x.test", mailTo := "to@x.test" }
            { name := none, email := "a@b.com", subject := none, message := none,
              page := none, location := none }
            (normalize (some [("email", JsValue.vstr "a@b.com")])),
         userCall { mailFrom := "from@x.test", mailTo := "to@x.test" }
            { name := none, email := "a@b.com", subject := none, message := none,
              page := none, location := none }
            (normalize (some [("email", JsValue.vstr "a@b.com")]))]) :=
  (submit_valid_two_escaped_sends (fun _ => true)
    { mailFrom := "from@x.test", mailTo := "to@x.test" }
    (some [("email", JsValue.vstr "a@b.com")])
    { name := none, email := "a@b.com", subject := none, message := none,
      page := none, location := none } (by rfl)).1

theorem email_mem_fieldErrs (emailValid : String → Bool) (body : List (String × String))
    (h : lookupA "email" body = none ∨
      ∃ e, lookupA "email" body = some e ∧ emailValid e = false) :
    "email" ∈ fieldErrs emailValid body := by
  unfold fieldErrs
  rcases h with h | ⟨e, he, hv⟩
  · rw [h]
    simp
  · rw [he]
    simp [hv]

theorem payloadParse_invalid_email (emailValid : String → Bool)
    (body : List (String × String))
    (h : lookupA "email" body = none ∨
      ∃ e, lookupA "email" body = some e ∧ emailValid e = false) :
    ∃ det, det ≠ [] ∧ payloadParse emailValid body = .error det := by
  have hne : fieldErrs emailValid body ≠ [] :=
    List.ne_nil_of_mem (email_mem_fieldErrs emailValid body h)
  refine ⟨fieldErrs emailValid body, hne, ?_⟩
  cases hlk : lookupA "email" body with
  | none =>
    unfold payloadParse
    rw [hlk]
  | some e =>
    unfold payloadParse
    rw [hlk]
    have hE : (fieldErrs emailValid body).isEmpty = false := by
      cases hfe : fieldErrs emailValid body with
      | nil => exact absurd hfe hne
      | cons a l => rfl
    simp [hE]

/-- C2: for every body missing `email` (after normalization) or whose
email the validator rejects, the handler responds 400 with
`{ok:false, error:"ValidationError", details:...}` (never a server
error) and issues zero send calls, whatever the provider outcomes would
have been. -/
theorem submit_invalid_email_rejected (emailValid : String → Bool) (cfg : Config)
    (send1ok send2ok : Bool) (reqBody : Option (List (String × JsValue)))
    (h : lookupA "email" (normalize reqBody) = none ∨
      ∃ e, lookupA "email" (normalize reqBody) = some e ∧ emailValid e = false) :
    (handleSubmit emailValid cfg send1ok send2ok reqBody).1.status = 400 ∧
    (∃ det, det ≠ [] ∧
      (handleSubmit emailValid cfg send1ok send2ok reqBody).1.body =
        .validationError det) ∧
    (handleSubmit emailValid cfg send1ok send2ok reqBody).2 = [] := by
  obtain ⟨det, hdet, hparse⟩ :=
    payloadParse_invalid_email emailValid (normalize reqBody) h
  have hh : handleSubmit emailValid cfg send1ok send2ok reqBody =
      ({ status := 400, body := .validationError det }, []) := by
    simp only [handleSubmit]
    rw [hparse]
  exact ⟨by rw [hh], ⟨det, hdet, by rw [hh]⟩, by rw [hh]⟩

/-- C2 witness: a body with no `email` key at all. -/
theorem submit_invalid_email_rejected_witness :
    (handleSubmit (fun _ => true) { mailFrom := "f@x.test", mailTo := "t@x.test" }
      true true (some [("name", JsValue.vstr "Jo")])).1.status = 400 ∧
    (∃ det, det ≠ [] ∧
      (handleSubmit (fun _ => true) { mailFrom := "f@x.test", mailTo := "t@x.test" }
        true true (some [("name", JsValue.vstr "Jo")])).1.body =
          .validationError det) ∧
    (handleSubmit (fun _ => true) { mailFrom := "f@x.test", mailTo := "t@x.test" }
      true true (some [("name", JsValue.vstr "Jo")])).2 = [] :=
  submit_invalid_email_rejected (fun _ => true)
    { mailFrom := "f@x.test", mailTo := "t@x.test" } true true
    (some [("name", JsValue.vstr "Jo")]) (Or.inl (by decide))

/-- C3: when the first (operator) send fails, the handler responds 500
`{ok:false, error:"ServerError"}` and only the operator call was issued —
the auto-reply send is never attempted; on the success path the calls are
dispatched in order: operator call first, auto-reply second. -/
theorem submit_first_send_fails_no_second (emailValid : String → Bool) (cfg : Config)
    (send2ok : Bool) (reqBody : Option (List (String × JsValue))) (d : SubmissionData)
    (hp : payloadParse emailValid (normalize reqBody) = .ok d) :
    handleSubmit emailValid cfg false send2ok reqBody =
      ({ status := 500, body := .serverError }, [ownerCall cfg d (normalize reqBody)]) ∧
    (handleSubmit emailValid cfg true true reqBody).2 =
      [ownerCall cfg d (normalize reqBody), userCall cfg d (normalize reqBody)] := by
  constructor
  · simp only [handleSubmit]
    rw [hp]
    rfl
  · simp only [handleSubmit]
    rw [hp]
    rfl

/-- C3 witness: first send fails on a valid single-field body. -/
theorem submit_first_send_fails_no_second_witness :
    handleSubmit (fun _ => true) { mailFrom := "f@x.test", mailTo := "t@x.test" }
        false true (some [("email", JsValue.vstr "a@b.com")]) =
      ({ status := 500, body := .serverError },
        [ownerCall { mailFrom := "f@x.test", mailTo := "t@x.test" }
            { name := none, email := "a@b.com", subject := none, message := none,
              page := none, location := none }
            (normalize (some [("email", JsValue.vstr "a@b.com")]))]) ∧
    (handleSubmit (fun _ => true) { mailFrom := "f@x.test", mailTo := "t@x.test" }
        true true (some [("email", JsValue.vstr "a@b.com")])).2 =
      [ownerCall { mailFrom := "f@x.test", mailTo := "t@x.test" }
          { name := none, email := "a@b.com", subject := none, message := none,
            page := none, location := none }
          (normalize (some [("email", JsValue.vstr "a@b.com")])),
       userCall { mailFrom := "f@x.test", mailTo := "t@x.test" }
          { name := none, email := "a@b.com", subject := none, message := none,
            page := none, location := none }
          (normalize (some [("email", JsValue.vstr "a@b.com")]))] :=
  submit_first_send_fails_no_second (fun _ => true)
    { mailFrom := "f@x.test", mailTo := "t@x.test" } true
    (some [("email", JsValue.vstr "a@b.com")])
    { name := none, email := "a@b.com", subject := none, message := none,
      page := none, location := none } (by rfl)

set_option maxRecDepth 100000 in
/-- C8: for the body
`{name:"Jo", email:"jo@x.com", subject:"Hi", message:"Line1\nLine2"}`
(with a validator accepting the address), the operator HTML contains
`Line1<br/>Line2`, the operator send subject is
`📝 New form submission: Hi` and the auto-reply subject is
`We got your message: Hi`. -/
theorem operator_html_linebreaks_and_subjects (emailValid : String → Bool)
    (cfg : Config) (h : emailValid "jo@x.com" = true) :
    ∃ c1 c2 : SendCall,
      (handleSubmit emailValid cfg true true
          (some [("name", JsValue.vstr "Jo"), ("email", JsValue.vstr "jo@x.com"),
            ("subject", JsValue.vstr "Hi"),
            ("message", JsValue.vstr "Line1\nLine2")])).2 = [c1, c2] ∧
      strContains c1.html.data "Line1<br/>Line2".data = true ∧
      c1.subject = "📝 New form submission: Hi" ∧
      c2.subject = "We got your message: Hi" := by
  have hb : normalize (some [("name", JsValue.vstr "Jo"), ("email", JsValue.vstr "jo@x.com"),
      ("subject", JsValue.vstr "Hi"), ("message", JsValue.vstr "Line1\nLine2")]) =
      [("name", "Jo"), ("email", "jo@x.com"), ("subject", "Hi"),
        ("message", "Line1\nLine2")] := by decide
  have hp : payloadParse emailValid
      (normalize (some [("name", JsValue.vstr "Jo"), ("email", JsValue.vstr "jo@x.com"),
        ("subject", JsValue.vstr "Hi"), ("message", JsValue.vstr "Line1\nLine2")])) =
      .ok { name := some "Jo", email := "jo@x.com", subject := some "Hi",
            message := some "Line1\nLine2", page := none, location := none } := by
    rw [hb]
    simp [payloadParse, fieldErrs, lookupA, h]
  refine ⟨ownerCall cfg
      { name := some "Jo", email := "jo@x.com", subject := some "Hi",
        message := some "Line1\nLine2", page := none, location := none }
      (normalize (some [("name", JsValue.vstr "Jo"), ("email", JsValue.vstr "jo@x.com"),
        ("subject", JsValue.vstr "Hi"), ("message", JsValue.vstr "Line1\nLine2")])),
    userCall cfg
      { name := some "Jo", email := "jo@x.com", subject := some "Hi",
        message := some "Line1\nLine2", page := none, location := none }
      (normalize (some [("name", JsValue.vstr "Jo"), ("email", JsValue.vstr "jo@x.com"),
        ("subject", JsValue.vstr "Hi"), ("message", JsValue.vstr "Line1\nLine2")])),
    ?_, ?_, ?_, ?_⟩
  · simp only [handleSubmit]
    rw [hp]
    rfl
  · show strContains
        (ownerHtml
          { name := some "Jo", email := "jo@x.com", subject := some "Hi",
            message := some "Line1\nLine2", page := none, location := none }
          (normalize (some [("name", JsValue.vstr "Jo"), ("email", JsValue.vstr "jo@x.com"),
            ("subject", JsValue.vstr "Hi"),
            ("message", JsValue.vstr "Line1\nLine2")]))).data
        "Line1<br/>Line2".data = true
    decide
  · show "📝 New form submission: " ++ effSubject
        { name := some "Jo", email := "jo@x.com", subject := some "Hi",
          message := some "Line1\nLine2", page := none, location := none } =
      "📝 New form submission: Hi"
    decide
  · show "We got your message: " ++ effSubject
        { name := some "Jo", email := "jo@x.com", subject := some "Hi",
          message := some "Line1\nLine2", page := none, location := none } =
      "We got your message: Hi"
    decide

/-- C8 witness: the always-true validator accepts `"jo@x.com"`. -/
theorem operator_html_linebreaks_and_subjects_witness :
    ∃ c1 c2 : SendCall,
      (handleSubmit (fun _ => true) { mailFrom := "f@x.test", mailTo := "t@x.test" }
          true true
          (some [("name", JsValue.vstr "Jo"), ("email", JsValue.vstr "jo@x.com"),
            ("subject", JsValue.vstr "Hi"),
            ("message", JsValue.vstr "Line1\nLine2")])).2 = [c1, c2] ∧
      strContains c1.html.data "Line1<br/>Line2".data = true ∧
      c1.subject = "📝 New form submission: Hi" ∧
      c2.subject = "We got your message: Hi" :=
  operator_html_linebreaks_and_subjects (fun _ => true)
    { mailFrom := "f@x.test", mailTo := "t@x.test" } rfl

end FramerForm
